import Mathlib

/-!
# Verification of the nanobot agent core

Shallow embedding of the nanobot repository's agent core
(`nanobot/agent/budget.py`, `nanobot/agent/loop.py`,
`nanobot/honcho/session.py`, `nanobot/utils/chunking.py`) and proofs of the
testable properties stated in the specification.

Modelling conventions:
* Python `float` dollar amounts are modelled as `ℚ` (the budget logic is pure
  arithmetic; no float-rounding behaviour is claimed anywhere).
* Python `str` is modelled as Lean `String` (with `List Char` underneath for
  the parsing/chunking algorithms).
* Python unbounded `int` token counts are modelled as `ℕ`.
* Components of the repository that are not part of the provided sources
  (tool registry, context builder, message bus, subagent manager internals)
  are modelled from the specification; each such definition carries a
  doc comment starting with `Modelled from the spec:`.
-/

namespace Nanobot

/-! ## Python string helpers (faithful to the `str` methods the code uses) -/

/-- Python `str.strip()` whitespace set (ASCII subset: space, tab, newline,
carriage return, vertical tab, form feed). -/
def pyIsSpace (c : Char) : Bool :=
  c = ' ' || c = '\t' || c = '\n' || c = '\r' ||
  c = Char.ofNat 11 || c = Char.ofNat 12

/-- Python `str.strip()`: remove leading and trailing whitespace. -/
def pyStrip (s : String) : String :=
  ⟨((s.data.dropWhile pyIsSpace).reverse.dropWhile pyIsSpace).reverse⟩

/-- Python `str.lower()` (ASCII behaviour, which is all the command strings
`/clear`, `/reset`, `/new`, `/status`, `/help` exercise). -/
def pyLower (s : String) : String :=
  ⟨s.data.map Char.toLower⟩

/-- Round a rational to the nearest integer, ties to even — the rounding used
by Python's fixed-point float formatting. -/
def roundHalfEven (q : ℚ) : ℤ :=
  let f : ℤ := ⌊q⌋
  let r : ℚ := q - f
  if r < 1/2 then f
  else if 1/2 < r then f + 1
  else if 2 ∣ f then f else f + 1

/-- Python `f"{x:.df}"` fixed-point formatting of a dollar amount, modelled on
`ℚ`: round-half-even at `d` decimal places. -/
def formatFixed (q : ℚ) (d : ℕ) : String :=
  let n : ℤ := roundHalfEven (q * (10 : ℚ) ^ d)
  let sign : String := if n < 0 then "-" else ""
  let a : ℕ := n.natAbs
  let ip : ℕ := a / 10 ^ d
  let fp : ℕ := a % 10 ^ d
  let fs : String := toString fp
  let pad : String := ⟨List.replicate (d - fs.length) '0'⟩
  if d = 0 then sign ++ toString ip
  else sign ++ toString ip ++ "." ++ pad ++ fs

/-- Helper for Python `f"{n:,}"`: insert a comma every three digits, working
on the reversed digit list. -/
def commaRev : List Char → List Char
  | [] => []
  | ds =>
    if ds.length ≤ 3 then ds
    else ds.take 3 ++ ',' :: commaRev (ds.drop 3)
termination_by ds => ds.length
decreasing_by
  simp only [List.length_drop]
  omega

/-- Python `f"{n:,}"` thousands-separated formatting of a token count. -/
def formatComma (n : ℕ) : String :=
  ⟨(commaRev (toString n).data.reverse).reverse⟩

/-! ## `nanobot/agent/budget.py` -/

/-- One entry of the `_calls` ledger
(`budget.py` appends a dict per `add_cost`). -/
structure CallEntry where
  source : String
  input_tokens : ℕ
  output_tokens : ℕ
  cost : ℚ
  deriving DecidableEq, Repr

/-- `SpendBudget` (budget.py lines 7–20): tracks API spend across agent and
subagent calls.  Dollar amounts are `ℚ`, token counts `ℕ`. -/
structure SpendBudget where
  max_spend_dollars : ℚ
  spent_dollars : ℚ := 0
  input_tokens : ℕ := 0
  output_tokens : ℕ := 0
  _calls : List CallEntry := []
  deriving DecidableEq, Repr

namespace SpendBudget

/-- `remaining_dollars` (budget.py lines 22–25):
`max(0, max_spend_dollars - spent_dollars)`. -/
def remaining_dollars (b : SpendBudget) : ℚ :=
  max 0 (b.max_spend_dollars - b.spent_dollars)

/-- `is_exhausted` (budget.py lines 27–30): `spent_dollars >= max_spend_dollars`. -/
def is_exhausted (b : SpendBudget) : Bool :=
  decide (b.max_spend_dollars ≤ b.spent_dollars)

/-- `utilization` (budget.py lines 32–37). -/
def utilization (b : SpendBudget) : ℚ :=
  if b.max_spend_dollars ≤ 0 then 0
  else b.spent_dollars / b.max_spend_dollars

/-- `add_cost` (budget.py lines 39–64): accumulate tokens and cost and append
a ledger entry. -/
def add_cost (b : SpendBudget) (cost : ℚ) (input_tokens : ℕ := 0)
    (output_tokens : ℕ := 0) (source : String := "agent") : SpendBudget :=
  { b with
    input_tokens := b.input_tokens + input_tokens
    output_tokens := b.output_tokens + output_tokens
    spent_dollars := b.spent_dollars + cost
    _calls := b._calls ++ [{ source := source, input_tokens := input_tokens,
                             output_tokens := output_tokens, cost := cost }] }

/-- `get_summary` (budget.py lines 66–71):
`f"${spent:.4f} of ${max:.2f} ({in:,} in, {out:,} out)"`. -/
def get_summary (b : SpendBudget) : String :=
  "$" ++ formatFixed b.spent_dollars 4 ++ " of $" ++
    formatFixed b.max_spend_dollars 2 ++ " (" ++
    formatComma b.input_tokens ++ " in, " ++
    formatComma b.output_tokens ++ " out)"

end SpendBudget

/-- Apply a sequence of `add_cost` calls in order. -/
def applyCosts (b : SpendBudget) (es : List CallEntry) : SpendBudget :=
  es.foldl (fun b e => b.add_cost e.cost e.input_tokens e.output_tokens e.source) b

/-- Total of the costs in a sequence of `add_cost` arguments. -/
def sumCosts (es : List CallEntry) : ℚ :=
  (es.map (·.cost)).sum

/-! ## Messages, tools and the agent loop (`nanobot/agent/loop.py`)

`loop.py` constructs the request budget with price-per-million keyword
arguments and records spend through `budget.add_usage(...)`; neither appears
in the provided `budget.py` (which only has `add_cost`).  The missing
`add_usage` is therefore modelled from the spec (§4.1 step 3: "atomically add
the call's cost/token usage"), with the per-million prices taken from the
loop's own configuration fields. -/

/-- Modelled from the spec: `add_usage`, called by loop.py lines 297–302 but
absent from the provided budget.py — it converts the call's token usage to a
dollar cost at the loop's per-million-token prices and accumulates it through
the budget's single `add_cost` accumulation point. -/
def SpendBudget.add_usage (b : SpendBudget) (pin pout : ℚ)
    (prompt_tokens completion_tokens : ℕ) (source : String) : SpendBudget :=
  b.add_cost (prompt_tokens * pin / 1000000 + completion_tokens * pout / 1000000)
    prompt_tokens completion_tokens source

/-- `InboundMessage` (`nanobot/bus/events.py`, consumed by loop.py): channel,
sender, chat id and text content.  Media attachments are omitted: no claim
mentions them. -/
structure InboundMessage where
  channel : String
  sender_id : String
  chat_id : String
  content : String
  deriving DecidableEq, Repr

/-- Modelled from the spec: `session_key = channel + ":" + chat_id` (spec §3;
the property lives in the bus events module, which is not among the provided
sources). -/
def InboundMessage.session_key (m : InboundMessage) : String :=
  m.channel ++ ":" ++ m.chat_id

/-- `OutboundMessage` (`nanobot/bus/events.py`): destination channel/chat and
content. -/
structure OutboundMessage where
  channel : String
  chat_id : String
  content : String
  deriving DecidableEq, Repr

/-- A tool call proposed by the model (`ToolCall` of the provider layer):
id, tool name, and its arguments (kept opaque as their JSON text). -/
structure ToolCall where
  id : String
  name : String
  arguments : String
  deriving DecidableEq, Repr

/-- One model-provider response: optional text content, requested tool calls,
and optional `(prompt_tokens, completion_tokens)` usage. -/
structure LLMResponse where
  content : Option String
  tool_calls : List ToolCall
  usage : Option (ℕ × ℕ)
  deriving DecidableEq, Repr

/-- `response.has_tool_calls` used by loop.py line 306. -/
def LLMResponse.has_tool_calls (r : LLMResponse) : Bool :=
  !r.tool_calls.isEmpty

/-- One entry of the provider-ready message sequence built by the context
builder. -/
inductive ChatMsg where
  | hist (role : String) (content : String)
  | user (content : String)
  | assistant (content : Option String) (tool_calls : List ToolCall)
  | toolResult (call_id : String) (name : String) (content : String)
  deriving DecidableEq, Repr

/-- Modelled from the spec (§4.5): `ContextBuilder.build_messages` — history
turns followed by the new user turn (the context module is not among the
provided sources; system-prompt and user-context decoration are omitted as no
claim depends on them). -/
def build_messages (history : List (String × String)) (current : String) :
    List ChatMsg :=
  (history.map fun rc => ChatMsg.hist rc.1 rc.2) ++ [ChatMsg.user current]

/-- Modelled from the spec (§4.5): `ContextBuilder.add_assistant_message` —
append an assistant turn carrying the raw tool-call records. -/
def add_assistant_message (messages : List ChatMsg) (content : Option String)
    (tool_calls : List ToolCall) : List ChatMsg :=
  messages ++ [ChatMsg.assistant content tool_calls]

/-- Modelled from the spec (§4.5): `ContextBuilder.add_tool_result` — append a
tool-result turn echoing the call id. -/
def add_tool_result (messages : List ChatMsg) (call_id name result : String) :
    List ChatMsg :=
  messages ++ [ChatMsg.toolResult call_id name result]

/-- Modelled from the spec (§2, §4.1, §9): one registered tool behind the
registry's capability interface.  `run` returns a result-or-error and the
outbound messages the tool itself publishes through a callback it was
constructed with (spec §4.1: "tool dispatch side effects are the tools' own
responsibility"; loop.py line 133 hands `bus.publish_outbound` to the message
tool as its send callback). -/
structure ToolImpl where
  name : String
  run : String → Except String String × List OutboundMessage

/-- Modelled from the spec: the Tool Registry's name→capability mapping
(`nanobot/agent/tools/registry.py` is not among the provided sources). -/
structure ToolRegistry where
  tools : List ToolImpl

/-- Modelled from the spec (§7(a), §8): `ToolRegistry.execute` — dispatch by
exact name; an unregistered name or a failing tool yields a tool-result error
string instead of an exception (the exact wording is modelled, the
registry module being absent from the provided sources). -/
def ToolRegistry.execute (reg : ToolRegistry) (name args : String) :
    String × List OutboundMessage :=
  match reg.tools.find? (fun t => t.name = name) with
  | none => ("Error: tool not found: " ++ name, [])
  | some t =>
    match t.run args with
    | (Except.ok r, pub) => (r, pub)
    | (Except.error e, pub) => ("Error: " ++ e, pub)

/-- loop.py lines 323–330: execute the tool calls of one response in order,
appending one tool-result turn per call; also collect the outbound messages
the tools publish. -/
def execToolCalls (reg : ToolRegistry) (messages : List ChatMsg) :
    List ToolCall → List ChatMsg × List OutboundMessage
  | [] => (messages, [])
  | tc :: rest =>
    let rp := reg.execute tc.name tc.arguments
    let messages := add_tool_result messages tc.id tc.name rp.1
    let mp := execToolCalls reg messages rest
    (mp.1, rp.2 ++ mp.2)

/-- The `AgentLoop.__init__` configuration fields the claims exercise
(loop.py lines 40–74). -/
structure AgentConfig where
  max_iterations : ℕ := 20
  max_spend_dollars : Option ℚ := none
  input_price_per_million : ℚ := 15
  output_price_per_million : ℚ := 75
  honcho_enabled : Bool := true
  honcho_prefetch : Bool := true

/-- Python truthiness of the optional float `self.max_spend_dollars` as used
by `if self.max_spend_dollars:` (loop.py line 267): `None` and `0.0` are
falsy, every other float truthy. -/
def pythonTruthy : Option ℚ → Bool
  | none => false
  | some q => decide (q ≠ 0)

/-- The environment a turn runs against: the provider's responses (the i-th
model call returns `script i`), the tool registry, and the history the
remote session backend returns when a session key is first loaded. -/
structure Env where
  script : ℕ → LLMResponse
  registry : ToolRegistry
  remoteInit : String → List (String × String)

/-- Running state of the think/act cycle of `_process_message`
(loop.py lines 276–334). -/
structure LoopState where
  messages : List ChatMsg
  budget : Option SpendBudget
  calls : ℕ
  published : List OutboundMessage

/-- How the think/act cycle ended. -/
inductive LoopExit where
  | answered (content : Option String)
  | budgetStop
  | iterCap
  deriving DecidableEq, Repr

/-- The `if budget and budget.is_exhausted` test of loop.py line 285: false
when no budget is attached. -/
def budgetExhausted : Option SpendBudget → Bool
  | some b => b.is_exhausted
  | none => false

/-- One-for-one embedding of the `while iteration < self.max_iterations` loop
of `_process_message` (loop.py lines 281–334), by recursion on the remaining
iteration count: check the budget before the model call, call the provider,
record spend (at the loop's per-million prices `pin`/`pout`), then either
execute the requested tools and continue or finish with the response
content. -/
def stepLoop (pin pout : ℚ) (env : Env) :
    ℕ → LoopState → LoopExit × LoopState
  | 0, st => (LoopExit.iterCap, st)
  | remaining + 1, st =>
    if budgetExhausted st.budget then (LoopExit.budgetStop, st)
    else
      let response := env.script st.calls
      let budget :=
        match st.budget, response.usage with
        | some b, some u => some (b.add_usage pin pout u.1 u.2 "agent")
        | b, _ => b
      let st1 : LoopState := { st with budget := budget, calls := st.calls + 1 }
      if response.has_tool_calls then
        let messages := add_assistant_message st1.messages response.content
          response.tool_calls
        let mp := execToolCalls env.registry messages response.tool_calls
        stepLoop pin pout env remaining
          { st1 with messages := mp.1, published := st1.published ++ mp.2 }
      else
        (LoopExit.answered response.content, st1)

/-- The think/act cycle of one turn, started with iteration budget
`cfg.max_iterations` and zero provider calls. -/
def run_turn (cfg : AgentConfig) (env : Env) (messages : List ChatMsg)
    (budget : Option SpendBudget) : LoopExit × LoopState :=
  stepLoop cfg.input_price_per_million cfg.output_price_per_million env
    cfg.max_iterations
    { messages := messages, budget := budget, calls := 0, published := [] }

/-- loop.py lines 336–343: resolve the final content — budget exhaustion
notice, the model's answer, or the generic fallback. -/
def finalContent (ex : LoopExit) (budget : Option SpendBudget) : String :=
  match ex, budget with
  | LoopExit.budgetStop, some b =>
    "I've reached my budget limit for this request. " ++ b.get_summary
  | LoopExit.answered (some c), _ => c
  | _, _ => "I've completed processing but have no response to give."

/-! ## Session store (`nanobot/honcho/session.py`) -/

/-- `HonchoSession` (session.py lines 15–31), reduced to the fields the agent
loop reads and writes: the session key and the cached message list (role and
content; timestamps and the Honcho peer/session handles are external-service
bookkeeping no claim touches). -/
structure HonchoSession where
  key : String
  messages : List (String × String)
  deriving DecidableEq, Repr

/-- `HonchoSession.add_message` (session.py lines 33–42): append to the local
cache. -/
def HonchoSession.add_message (s : HonchoSession) (role content : String) :
    HonchoSession :=
  { s with messages := s.messages ++ [(role, content)] }

/-- `HonchoSession.get_history` (session.py lines 44–59): the most recent
`max_messages` (default 50) messages in provider format. -/
def HonchoSession.get_history (s : HonchoSession) (max_messages : ℕ := 50) :
    List (String × String) :=
  if s.messages.length > max_messages then
    s.messages.drop (s.messages.length - max_messages)
  else s.messages

/-- `HonchoSession.clear` (session.py lines 61–64): empty the message list. -/
def HonchoSession.clear (s : HonchoSession) : HonchoSession :=
  { s with messages := [] }

/-- The session manager's local cache `self._cache : dict[str, HonchoSession]`
(session.py line 85), as an association list from key to session. -/
abbrev SessionMap := List (String × HonchoSession)

/-- Dictionary lookup in the session cache. -/
def lookupSession (m : SessionMap) (key : String) : Option HonchoSession :=
  match List.find? (fun kv => kv.1 = key) m with
  | some kv => some kv.2
  | none => none

/-- Dictionary assignment `self._cache[key] = session`. -/
def insertSession (m : SessionMap) (key : String) (s : HonchoSession) :
    SessionMap :=
  (key, s) :: (List.filter (fun kv => !(kv.1 = key : Bool)) m)

/-- `HonchoSessionManager.get_or_create` (session.py lines 180–237): return
the cached session, or create one seeded with whatever history the remote
backend returns for the key (`env.remoteInit`) and cache it.  Because Python
returns the cached object itself, later in-place mutations of the returned
session are modelled by explicit cache updates at each mutation site. -/
def get_or_create (env : Env) (m : SessionMap) (key : String) :
    SessionMap × HonchoSession :=
  match lookupSession m key with
  | some s => (m, s)
  | none =>
    let s : HonchoSession := { key := key, messages := env.remoteInit key }
    (insertSession m key s, s)

/-- `HonchoSessionManager.save` (session.py lines 239–286): with no messages
it returns before touching the cache; otherwise it syncs and re-caches the
session. -/
def saveSession (m : SessionMap) (s : HonchoSession) : SessionMap :=
  if s.messages.isEmpty then m else insertSession m s.key s

/-! ## Command handling and message processing (`loop.py`) -/

/-- Status line built by the `/status` branch (loop.py lines 500–509). -/
def statusText (honcho_enabled honcho_prefetch : Bool) (session_key : String)
    (msg_count : ℕ) : String :=
  "Session: " ++ session_key ++ "\nMessages: " ++ toString msg_count ++
    "\nHoncho: " ++ (if honcho_enabled then "enabled" else "disabled") ++
    " (prefetch: " ++ (if honcho_prefetch then "on" else "off") ++ ")"

/-- Help text of the `/help` branch (loop.py lines 512–517). -/
def helpText : String :=
  "Commands:\n/clear - Clear conversation history\n/status - Show session info\n/help - Show this help"

/-- `AgentLoop._handle_command` (loop.py lines 475–519): recognise
`/clear`/`/reset`/`/new`, `/status` and `/help` on the stripped, lowered
content; anything else is not a command. -/
def handle_command (cfg : AgentConfig) (env : Env) (sessions : SessionMap)
    (msg : InboundMessage) : Option (SessionMap × OutboundMessage) :=
  let content := pyLower (pyStrip msg.content)
  if content = "/clear" ∨ content = "/reset" ∨ content = "/new" then
    let ms := get_or_create env sessions msg.session_key
    let cleared := ms.2.clear
    -- `session.clear()` mutates the cached object in place:
    let sessions1 := insertSession ms.1 cleared.key cleared
    -- `self.sessions.save(session)` then returns early (no messages):
    let sessions2 := saveSession sessions1 cleared
    some (sessions2,
      ⟨msg.channel, msg.chat_id, "Session cleared. Starting fresh conversation."⟩)
  else if content = "/status" then
    let ms := get_or_create env sessions msg.session_key
    some (ms.1,
      ⟨msg.channel, msg.chat_id,
        statusText cfg.honcho_enabled cfg.honcho_prefetch msg.session_key
          ms.2.messages.length⟩)
  else if content = "/help" then
    some (sessions, ⟨msg.channel, msg.chat_id, helpText⟩)
  else none

/-- Split a character list at the first occurrence of `sep`:
`some (before, after)` when `sep` occurs — the `split(sep, 1)` of
`_process_system_message` — and `none` when it does not (the
`":" in msg.chat_id` test). -/
def splitFirst (sep : Char) : List Char → Option (List Char × List Char)
  | [] => none
  | c :: cs =>
    if c = sep then some ([], cs)
    else
      match splitFirst sep cs with
      | some pq => some (c :: pq.1, pq.2)
      | none => none

/-- loop.py lines 365–373: parse `"origin_channel:origin_chat_id"` out of a
system message's chat id, falling back to channel `"cli"` when there is no
colon. -/
def parseOriginChat (chat_id : String) : String × String :=
  match splitFirst ':' chat_id.data with
  | some pq => (⟨pq.1⟩, ⟨pq.2⟩)
  | none => ("cli", chat_id)

/-- Everything one call of `_process_message` produces: the updated session
cache, the returned outbound message (if any), the outbound messages tools
published mid-turn, the number of model-provider calls made, the final
budget, and whether a budget was attached to the subagent manager. -/
structure TurnOutput where
  sessions : SessionMap
  response : Option OutboundMessage
  published : List OutboundMessage
  provider_calls : ℕ
  budget : Option SpendBudget
  shared_budget_set : Bool

/-- `AgentLoop._process_system_message` (loop.py lines 356–473): decode the
origin routing from the chat id, run the think/act cycle (no budget in this
variant), store the exchange tagged as a system announce, and route the
result to the decoded origin. -/
def process_system_message (cfg : AgentConfig) (env : Env)
    (sessions : SessionMap) (msg : InboundMessage) : TurnOutput :=
  let oc := parseOriginChat msg.chat_id
  let session_key := oc.1 ++ ":" ++ oc.2
  let ms := get_or_create env sessions session_key
  let messages := build_messages (ms.2.get_history) msg.content
  let exSt := run_turn cfg env messages none
  let final :=
    match exSt.1 with
    | LoopExit.answered (some c) => c
    | _ => "Background task completed."
  let session :=
    (ms.2.add_message "user" ("[System: " ++ msg.sender_id ++ "] " ++ msg.content)).add_message
      "assistant" final
  let sessions1 := saveSession ms.1 session
  { sessions := sessions1
    response := some ⟨oc.1, oc.2, final⟩
    published := exSt.2.published
    provider_calls := exSt.2.calls
    budget := none
    shared_budget_set := false }

/-- `AgentLoop._process_message` (loop.py lines 192–354): route system
messages, short-circuit commands, otherwise create the per-request budget when
a spend ceiling is configured (Python truthiness, loop.py line 267), run the
think/act cycle, resolve the final content, store and save the exchange, and
return the outbound response.  The budget construction keeps only
`max_spend_dollars`: the price keyword arguments loop.py passes do not exist
on the provided `SpendBudget`, and the prices stay in the config. -/
def process_message (cfg : AgentConfig) (env : Env) (sessions : SessionMap)
    (msg : InboundMessage) : TurnOutput :=
  if msg.channel = "system" then process_system_message cfg env sessions msg
  else
    match handle_command cfg env sessions msg with
    | some so =>
      { sessions := so.1, response := some so.2, published := [],
        provider_calls := 0, budget := none, shared_budget_set := false }
    | none =>
      let ms := get_or_create env sessions msg.session_key
      let messages := build_messages (ms.2.get_history) msg.content
      let budget :=
        if pythonTruthy cfg.max_spend_dollars then
          some { max_spend_dollars := cfg.max_spend_dollars.getD 0 : SpendBudget }
        else none
      -- `self.subagents.set_shared_budget(budget)` happens exactly when a
      -- budget was created (loop.py lines 273–274):
      let shared := budget.isSome
      let exSt := run_turn cfg env messages budget
      let final := finalContent exSt.1 exSt.2.budget
      let session :=
        (ms.2.add_message "user" msg.content).add_message "assistant" final
      let sessions1 := saveSession ms.1 session
      { sessions := sessions1
        response := some ⟨msg.channel, msg.chat_id, final⟩
        published := exSt.2.published
        provider_calls := exSt.2.calls
        budget := exSt.2.budget
        shared_budget_set := shared }

/-- Total number of outbound messages the bus receives for one inbound
message: the mid-turn publishes of tools plus the loop's own returned
response, which `AgentLoop.run` publishes (loop.py lines 172–175). -/
def totalOutbound (t : TurnOutput) : ℕ :=
  t.published.length + (match t.response with | some _ => 1 | none => 0)

/-! ## Message chunking (`nanobot/utils/chunking.py`)

`chunk_message` is embedded over `List Char` (a Python `str` slice for slice).
`str.rfind` results are kept as `ℤ` so the `-1` not-found sentinel and the
`> max_length // 2` comparisons read exactly as in the source. -/

/-- `DISCORD_MAX_LENGTH` (chunking.py line 6). -/
def DISCORD_MAX_LENGTH : ℕ := 2000

/-- The three-backtick fence delimiting a code block. -/
def fence : List Char := [Char.ofNat 96, Char.ofNat 96, Char.ofNat 96]

/-- Left-to-right scan computing the matches of the non-greedy code-block
pattern (chunking.py line 7): a fence opens a block, the next fence at least
three characters later closes it (the lazy `[\s\S]*?` takes the earliest
closing fence), and scanning resumes after the closing fence exactly as
`re.finditer` does.  An unclosed fence produces no further matches, as no
closing fence exists for any later start either. -/
def blockScan : List Char → ℕ → Option ℕ → List (ℕ × ℕ)
  | [], _, _ => []
  | c :: rest, pos, opened =>
    if fence.isPrefixOf (c :: rest) then
      match opened with
      | none => blockScan (rest.drop 2) (pos + 3) (some pos)
      | some st => (st, pos + 3) :: blockScan (rest.drop 2) (pos + 3) none
    else blockScan rest (pos + 1) opened
termination_by l _ _ => l.length
decreasing_by
  · simp only [List.length_cons, List.length_drop]; omega
  · simp only [List.length_cons, List.length_drop]; omega
  · simp only [List.length_cons]; omega

/-- `CODE_BLOCK_PATTERN.finditer(content)` start/end pairs
(chunking.py line 31). -/
def findCodeBlocks (s : List Char) : List (ℕ × ℕ) :=
  blockScan s 0 none

/-- Python `chunk.rfind(pat)`: the greatest index at which `pat` occurs in
`s`, or `-1` when it does not occur. -/
def strRfind (s pat : List Char) : ℤ :=
  match ((List.range (s.length + 1)).filter fun i => pat.isPrefixOf (s.drop i)).getLast? with
  | some i => (i : ℤ)
  | none => -1

/-- The `end_pos` adjustment of one non-final iteration of `chunk_message`
(chunking.py lines 44–83), with `end_pos = current_pos + max_length`: cut
before a code block, include a fitting code block whole, split a long code
block at a late newline, or otherwise prefer paragraph, newline and space
break points in that order. -/
def adjustEnd (content : List Char) (blocks : List (ℕ × ℕ)) (ml cur : ℕ) : ℕ :=
  let end_pos := cur + ml
  match blocks.find? (fun se => decide (se.1 < end_pos) && decide (end_pos ≤ se.2)) with
  | some se =>
    if cur < se.1 then se.1
    else if se.2 - cur ≤ ml then se.2
    else
      let chunk := (content.drop cur).take ml
      let last_newline := strRfind chunk ['\n']
      if ((ml / 2 : ℕ) : ℤ) < last_newline then cur + last_newline.toNat + 1
      else end_pos
  | none =>
    let chunk := (content.drop cur).take ml
    let para_break := strRfind chunk ['\n', '\n']
    if ((ml / 2 : ℕ) : ℤ) < para_break then cur + para_break.toNat + 2
    else
      let newline := strRfind chunk ['\n']
      if ((ml / 2 : ℕ) : ℤ) < newline then cur + newline.toNat + 1
      else
        let space := strRfind chunk [' ']
        if ((ml / 2 : ℕ) : ℤ) < space then cur + space.toNat + 1
        else end_pos

/-- The `while current_pos < len(content)` loop of `chunk_message`
(chunking.py lines 35–86).  The positivity hypothesis on `max_length` is the
loop's progress guarantee (with `max_length = 0` the Python loop does not
terminate). -/
def chunkLoop (content : List Char) (blocks : List (ℕ × ℕ)) (ml : ℕ)
    (hml : 0 < ml) (cur : ℕ) : List (List Char) :=
  if cur < content.length then
    if content.length ≤ cur + ml then [content.drop cur]
    else
      let ep := adjustEnd content blocks ml cur
      (content.drop cur).take (ep - cur) :: chunkLoop content blocks ml hml ep
  else []
termination_by content.length - cur
decreasing_by
  have hprog : cur < adjustEnd content blocks ml cur := by
    unfold adjustEnd
    simp only
    split
    next se heq =>
      have hp := List.find?_some heq
      simp only [Bool.and_eq_true, decide_eq_true_eq] at hp
      split_ifs <;> omega
    next _ =>
      split_ifs <;> omega
  omega

/-- `chunk_message` (chunking.py lines 10–86).  A content that fits yields
itself; otherwise the code blocks are located and the splitting loop runs.
(The `max_length = 0` case, on which the source loops forever, is given the
junk value `[]`; every claim assumes `max_length ≥ 1`.) -/
def chunk_message (content : List Char) (ml : ℕ) : List (List Char) :=
  if content.length ≤ ml then [content]
  else if hml : 0 < ml then chunkLoop content (findCodeBlocks content) ml hml 0
  else []

/-! ## Shared-budget concurrency (spec §4.3, §5; loop.py lines 281–303)

Modelled from the spec: the subagent manager (not among the provided sources)
runs each subagent as an independent instance of the same think/act cycle,
all charging one shared `SpendBudget`.  Each loop `l` repeatedly performs the
in-source iterate cycle of loop.py: it first checks `is_exhausted` (line 285)
— stopping if the budget is exhausted (or when its iteration cap is reached,
which the model allows at any time since stopping early only reduces spend) —
and otherwise starts a model call whose eventual cost is added to the shared
budget when the call completes (lines 297–302).  `lastCost` records the cost
of each loop's most recently started call (`0` before its first call). -/

/-- Where one loop of the shared-budget system stands. -/
inductive LoopPhase where
  | checking
  | calling (cost : ℚ)
  | finished
  deriving DecidableEq

/-- The cost of the in-flight call of a phase, `0` when none. -/
def LoopPhase.inFlight : LoopPhase → ℚ
  | LoopPhase.calling c => c
  | _ => 0

/-- State of `n` concurrently running loops charging one shared budget. -/
structure SharedState (n : ℕ) where
  budget : SpendBudget
  phase : Fin n → LoopPhase
  lastCost : Fin n → ℚ

/-- The label of a shared-budget system step. -/
inductive SharedLabel (n : ℕ) where
  | start (l : Fin n) (cost : ℚ)
  | finish (l : Fin n) (tin tout : ℕ) (src : String)
  | stop (l : Fin n)

/-- Interleaved small-step semantics of the shared-budget system.  A loop in
its budget check starts a call only when `is_exhausted` is false — the check
placement of loop.py line 285 — with the call's (nonnegative) cost fixed at
start; finishing a call adds its cost through the budget's single `add_cost`
accumulation point; a loop in its check may also stop (budget exhausted, or
its own iteration cap). -/
inductive SharedStep {n : ℕ} :
    SharedState n → SharedLabel n → SharedState n → Prop where
  | start {σ : SharedState n} (l : Fin n) (c : ℚ) :
      0 ≤ c →
      σ.phase l = LoopPhase.checking →
      σ.budget.is_exhausted = false →
      SharedStep σ (SharedLabel.start l c)
        { σ with phase := Function.update σ.phase l (LoopPhase.calling c),
                 lastCost := Function.update σ.lastCost l c }
  | finish {σ : SharedState n} (l : Fin n) (c : ℚ) (tin tout : ℕ) (src : String) :
      σ.phase l = LoopPhase.calling c →
      SharedStep σ (SharedLabel.finish l tin tout src)
        { σ with phase := Function.update σ.phase l LoopPhase.checking,
                 budget := σ.budget.add_cost c tin tout src }
  | stop {σ : SharedState n} (l : Fin n) :
      σ.phase l = LoopPhase.checking →
      SharedStep σ (SharedLabel.stop l)
        { σ with phase := Function.update σ.phase l LoopPhase.finished }

/-- The initial state: a fresh shared budget with ceiling `m`, every loop at
its budget check, no call started yet. -/
def sharedInit (n : ℕ) (m : ℚ) : SharedState n :=
  { budget := { max_spend_dollars := m }
    phase := fun _ => LoopPhase.checking
    lastCost := fun _ => 0 }

/-- States the shared-budget system can reach from `σ`. -/
inductive SharedReachable {n : ℕ} : SharedState n → SharedState n → Prop where
  | refl (σ : SharedState n) : SharedReachable σ σ
  | tail {σ σ₁ σ₂ : SharedState n} {lbl : SharedLabel n} :
      SharedReachable σ σ₁ → SharedStep σ₁ lbl σ₂ → SharedReachable σ σ₂

/-- Sum of the in-flight call costs. -/
def inFlightSum {n : ℕ} (σ : SharedState n) : ℚ :=
  ∑ l : Fin n, (σ.phase l).inFlight

/-- Sum over the loops of the most recent call cost each. -/
def lastCostSum {n : ℕ} (σ : SharedState n) : ℚ :=
  ∑ l : Fin n, σ.lastCost l

/-- The inductive invariant of the shared-budget system: the ceiling is
fixed, recorded last costs are nonnegative, an in-flight call's cost is its
loop's recorded last cost, and the spend plus all in-flight costs stays
within the ceiling plus one recorded call cost per loop. -/
def SharedInv {n : ℕ} (m : ℚ) (σ : SharedState n) : Prop :=
  σ.budget.max_spend_dollars = m ∧
  (∀ l, 0 ≤ σ.lastCost l) ∧
  (∀ l c, σ.phase l = LoopPhase.calling c → σ.lastCost l = c) ∧
  σ.budget.spent_dollars + inFlightSum σ ≤ m + lastCostSum σ

/-! ## The spec's two-subagent scenario (spec §8): a $1.00 ceiling, one
subagent call costing $0.60 and one costing $0.70, interleaved.  Amounts are
written in tenths of a dollar (ceiling 10, costs 6 and 7) so that every
side condition evaluates by `decide`. -/

/-- Initial state: fresh shared budget at the ceiling, both loops at their
check. -/
def demoState0 : SharedState 2 := sharedInit 2 10

/-- Loop 0 passes the (non-exhausted) check and starts its cost-6 call. -/
def demoState1 : SharedState 2 :=
  { demoState0 with
    phase := Function.update demoState0.phase 0 (LoopPhase.calling 6)
    lastCost := Function.update demoState0.lastCost 0 6 }

/-- Loop 0's call completes: 6 is charged to the shared budget. -/
def demoState2 : SharedState 2 :=
  { demoState1 with
    phase := Function.update demoState1.phase 0 LoopPhase.checking
    budget := demoState1.budget.add_cost 6 0 0 "subagent:a" }

/-- Loop 1 passes the check (6 < 10) and starts its cost-7 call. -/
def demoState3 : SharedState 2 :=
  { demoState2 with
    phase := Function.update demoState2.phase 1 (LoopPhase.calling 7)
    lastCost := Function.update demoState2.lastCost 1 7 }

/-- Loop 1's call completes: total spend reaches 13, over the ceiling but
within ceiling plus one in-flight call per loop. -/
def demoState4 : SharedState 2 :=
  { demoState3 with
    phase := Function.update demoState3.phase 1 LoopPhase.checking
    budget := demoState3.budget.add_cost 7 0 0 "subagent:b" }

/-! ## Concrete witness environments -/

/-- A minimal environment: the provider always answers `"ok"` with no tool
calls, no tools are registered, the remote session backend has no history. -/
def plainEnv : Env where
  script := fun _ => { content := some "ok", tool_calls := [], usage := none }
  registry := { tools := [] }
  remoteInit := fun _ => []

/-- An environment whose provider requests a tool call on every response —
the scenario of a turn whose model responses never omit tool calls. -/
def loopingEnv : Env where
  script := fun i =>
    { content := none
      tool_calls := [{ id := "call-" ++ toString i, name := "noop", arguments := "{}" }]
      usage := none }
  registry := { tools := [] }
  remoteInit := fun _ => []

/-- Modelled from the spec and loop.py lines 132–134: the message tool, which
the loop registers with `send_callback = self.bus.publish_outbound` — running
it publishes one outbound message through that callback (to the channel/chat
context the loop set on it) and returns a confirmation result. -/
def message_tool (channel chat_id : String) : ToolImpl where
  name := "message"
  run := fun args => (Except.ok "Message sent.", [⟨channel, chat_id, args⟩])

/-- An environment in which the model's first response invokes the message
tool and the second response answers without tool calls. -/
def msgToolEnv : Env where
  script := fun i =>
    if i = 0 then
      { content := none
        tool_calls := [{ id := "call-0", name := "message", arguments := "hello" }]
        usage := none }
    else { content := some "done", tool_calls := [], usage := none }
  registry := { tools := [message_tool "cli" "direct"] }
  remoteInit := fun _ => []

theorem applyCosts_spent (b : SpendBudget) (es : List CallEntry) :
    (applyCosts b es).spent_dollars = b.spent_dollars + sumCosts es := by
  induction es generalizing b with
  | nil => simp [applyCosts, sumCosts]
  | cons e es ih =>
    simp only [applyCosts, List.foldl_cons] at *
    rw [ih]
    simp [sumCosts, SpendBudget.add_cost]
    ring

theorem applyCosts_max (b : SpendBudget) (es : List CallEntry) :
    (applyCosts b es).max_spend_dollars = b.max_spend_dollars := by
  induction es generalizing b with
  | nil => rfl
  | cons e es ih =>
    simp only [applyCosts, List.foldl_cons] at *
    rw [ih]
    rfl

theorem sumCosts_nonneg (es : List CallEntry) (h : ∀ e ∈ es, 0 ≤ e.cost) :
    0 ≤ sumCosts es := by
  induction es with
  | nil => simp [sumCosts]
  | cons e es ih =>
    simp only [sumCosts, List.map_cons, List.sum_cons]
    have h1 := h e (List.mem_cons_self e es)
    have h2 : 0 ≤ sumCosts es := ih (fun x hx => h x (List.mem_cons_of_mem e hx))
    simp only [sumCosts] at h2
    linarith

/-! ## Chunking lemmas (claim C10) -/

theorem isPrefixOf_length {p l : List Char} (h : p.isPrefixOf l = true) :
    p.length ≤ l.length := by
  induction p generalizing l with
  | nil => simp
  | cons a as ih =>
    cases l with
    | nil => simp [List.isPrefixOf] at h
    | cons b bs =>
      simp only [List.isPrefixOf, Bool.and_eq_true] at h
      simpa [List.length_cons] using Nat.succ_le_succ (ih h.2)

theorem memOfGetLast {α : Type} :
    ∀ {l : List α} {a : α}, l.getLast? = some a → a ∈ l := by
  intro l
  induction l with
  | nil => intro a h; simp [List.getLast?] at h
  | cons x xs ih =>
    intro a h
    cases xs with
    | nil =>
      simp [List.getLast?] at h
      simp [h]
    | cons y ys =>
      rw [List.getLast?_cons_cons] at h
      exact List.mem_cons_of_mem x (ih h)

/-- A found `rfind` occurrence ends inside the string: the occurrence index
plus the pattern length is at most the string length. -/
theorem strRfind_bound (s pat : List Char) (h : 0 ≤ strRfind s pat) :
    (strRfind s pat).toNat + pat.length ≤ s.length := by
  revert h
  unfold strRfind
  split
  next i heq =>
    intro _
    have hm := List.mem_filter.mp (memOfGetLast heq)
    have hr := List.mem_range.mp hm.1
    have hp := isPrefixOf_length hm.2
    simp only [List.length_drop] at hp
    omega
  next _ =>
    intro h
    exact absurd h (by decide)

/-- One non-final iteration of the chunking loop makes progress and never
takes more than `max_length` characters. -/
theorem adjustEnd_bounds (content : List Char) (blocks : List (ℕ × ℕ))
    (ml cur : ℕ) (hml : 0 < ml) :
    cur < adjustEnd content blocks ml cur ∧
      adjustEnd content blocks ml cur ≤ cur + ml := by
  have hlen : ((content.drop cur).take ml).length ≤ ml := by
    simp [List.length_take]
  unfold adjustEnd
  simp only
  split
  next se heq =>
    have hp := List.find?_some heq
    simp only [Bool.and_eq_true, decide_eq_true_eq] at hp
    split_ifs with h1 h2 h3
    · omega
    · omega
    · have hb := strRfind_bound ((content.drop cur).take ml) ['\n'] (by omega)
      simp only [List.length_cons, List.length_nil] at hb
      omega
    · omega
  next _ =>
    split_ifs with h1 h2 h3
    · have hb := strRfind_bound ((content.drop cur).take ml) ['\n', '\n'] (by omega)
      simp only [List.length_cons, List.length_nil] at hb
      omega
    · have hb := strRfind_bound ((content.drop cur).take ml) ['\n'] (by omega)
      simp only [List.length_cons, List.length_nil] at hb
      omega
    · have hb := strRfind_bound ((content.drop cur).take ml) [' '] (by omega)
      simp only [List.length_cons, List.length_nil] at hb
      omega
    · omega

/-- Concatenating a slice `[a, b)` with the rest from `b` recovers the rest
from `a`. -/
theorem slice_append (l : List Char) (a b : ℕ) (h : a ≤ b) :
    (l.drop a).take (b - a) ++ l.drop b = l.drop a := by
  conv_rhs => rw [← List.take_append_drop (b - a) (l.drop a)]
  rw [List.drop_drop]
  have heq : a + (b - a) = b := by omega
  rw [heq]

/-- Every chunk the splitting loop yields is within `max_length`. -/
theorem chunkLoop_length_le (content : List Char) (blocks : List (ℕ × ℕ))
    (ml : ℕ) (hml : 0 < ml) :
    ∀ k cur, content.length - cur ≤ k →
      ∀ c ∈ chunkLoop content blocks ml hml cur, c.length ≤ ml := by
  intro k
  induction k with
  | zero =>
    intro cur hk c hc
    unfold chunkLoop at hc
    rw [if_neg (by omega)] at hc
    simp at hc
  | succ k ih =>
    intro cur hk c hc
    unfold chunkLoop at hc
    by_cases hcur : cur < content.length
    · rw [if_pos hcur] at hc
      by_cases hlast : content.length ≤ cur + ml
      · rw [if_pos hlast] at hc
        simp only [List.mem_singleton] at hc
        subst hc
        simp only [List.length_drop]
        omega
      · rw [if_neg hlast] at hc
        simp only [List.mem_cons] at hc
        rcases hc with hc | hc
        · subst hc
          have hb := adjustEnd_bounds content blocks ml cur hml
          simp only [List.length_take, List.length_drop]
          omega
        · have hb := adjustEnd_bounds content blocks ml cur hml
          exact ih (adjustEnd content blocks ml cur) (by omega) c hc
    · rw [if_neg hcur] at hc
      simp at hc

/-- The splitting loop started at `cur` yields exactly the characters from
`cur` on, in order. -/
theorem chunkLoop_flatten (content : List Char) (blocks : List (ℕ × ℕ))
    (ml : ℕ) (hml : 0 < ml) :
    ∀ k cur, content.length - cur ≤ k →
      (chunkLoop content blocks ml hml cur).flatten = content.drop cur := by
  intro k
  induction k with
  | zero =>
    intro cur hk
    unfold chunkLoop
    rw [if_neg (by omega)]
    simp only [List.flatten_nil]
    exact (List.drop_eq_nil_of_le (by omega)).symm
  | succ k ih =>
    intro cur hk
    unfold chunkLoop
    by_cases hcur : cur < content.length
    · rw [if_pos hcur]
      by_cases hlast : content.length ≤ cur + ml
      · rw [if_pos hlast]
        simp
      · rw [if_neg hlast]
        have hb := adjustEnd_bounds content blocks ml cur hml
        rw [List.flatten_cons]
        rw [ih (adjustEnd content blocks ml cur) (by omega)]
        exact slice_append content cur (adjustEnd content blocks ml cur) (by omega)
    · rw [if_neg hcur]
      simp only [List.flatten_nil]
      exact (List.drop_eq_nil_of_le (by omega)).symm


/-- C10: for every content string and every `max_length ≥ 1`, `chunk_message`
terminates yielding chunks that each fit in `max_length` and that concatenate
(in yield order) to exactly the original content; a content that already fits
is yielded as the single chunk itself. -/
theorem c10_chunk_message_correct (content : List Char) (ml : ℕ) (hml : 1 ≤ ml) :
    (∀ c ∈ chunk_message content ml, c.length ≤ ml) ∧
      (chunk_message content ml).flatten = content ∧
      (content.length ≤ ml → chunk_message content ml = [content]) := by
  unfold chunk_message
  by_cases hfit : content.length ≤ ml
  · rw [if_pos hfit]
    refine ⟨?_, by simp, fun _ => rfl⟩
    intro c hc
    simp only [List.mem_singleton] at hc
    subst hc
    exact hfit
  · rw [if_neg hfit, dif_pos (show 0 < ml from hml)]
    refine ⟨?_, ?_, fun hf => absurd hf hfit⟩
    · exact chunkLoop_length_le content (findCodeBlocks content) ml hml
        content.length 0 (by omega)
    · have h := chunkLoop_flatten content (findCodeBlocks content) ml hml
        content.length 0 (by omega)
      simpa using h

theorem c10_chunk_message_correct_witness :
    1 ≤ 5 ∧
      ((∀ c ∈ chunk_message ("hello brave new world".data) 5, c.length ≤ 5) ∧
        (chunk_message ("hello brave new world".data) 5).flatten =
          "hello brave new world".data ∧
        (("hello brave new world".data).length ≤ 5 →
          chunk_message ("hello brave new world".data) 5 =
            ["hello brave new world".data])) :=
  ⟨by decide, c10_chunk_message_correct ("hello brave new world".data) 5 (by decide)⟩

/-! ## Budget arithmetic (claim C1) -/

/-- C1 counterexample: the claim asserts `is_exhausted` is false after any
`add_cost` sequence summing to `s ≤ m`, but after one `add_cost` of `1`
against a ceiling of `1` (so `s = m`, hence `s ≤ m`) the code's
`spent >= max` test makes `is_exhausted` true.  Moreover `add_cost` accepts a
negative cost and then decreases `spent_dollars`, so the claimed unconditional
monotonicity also fails on the code as stated. -/
theorem c1_counterexample :
    (sumCosts [⟨"agent", 0, 0, 1⟩] ≤ (1 : ℚ) ∧
      (applyCosts { max_spend_dollars := 1 } [⟨"agent", 0, 0, 1⟩]).is_exhausted = true) ∧
    ((({ max_spend_dollars := 1, spent_dollars := 1 } : SpendBudget).add_cost
        (-1) 0 0 "agent").spent_dollars
      < ({ max_spend_dollars := 1, spent_dollars := 1 } : SpendBudget).spent_dollars) := by
  refine ⟨⟨?_, ?_⟩, ?_⟩ <;>
    norm_num [sumCosts, applyCosts, SpendBudget.add_cost, SpendBudget.is_exhausted]

/-- C1 (amended): for a budget with ceiling `m` and any sequence of `add_cost`
calls with the nonnegative costs LLM responses produce, summing to `s`:
while `s < m`, `is_exhausted` is false and `remaining_dollars = m - s`; once
`s ≥ m`, `is_exhausted` is true and remains true under every further
nonnegative `add_cost`; `spent_dollars` never decreases under further
nonnegative `add_cost` calls; and `remaining_dollars` always equals
`max 0 (m - spent_dollars)`. -/
theorem c1_budget_invariants (m : ℚ) (es : List CallEntry)
    (_h : ∀ e ∈ es, 0 ≤ e.cost) :
    (sumCosts es < m →
      (applyCosts { max_spend_dollars := m } es).is_exhausted = false ∧
        (applyCosts { max_spend_dollars := m } es).remaining_dollars =
          m - sumCosts es) ∧
    (m ≤ sumCosts es →
      (applyCosts { max_spend_dollars := m } es).is_exhausted = true ∧
        ∀ es2, (∀ e ∈ es2, 0 ≤ e.cost) →
          (applyCosts (applyCosts { max_spend_dollars := m } es) es2).is_exhausted
            = true) ∧
    (∀ es2, (∀ e ∈ es2, 0 ≤ e.cost) →
      (applyCosts { max_spend_dollars := m } es).spent_dollars ≤
        (applyCosts (applyCosts { max_spend_dollars := m } es) es2).spent_dollars) ∧
    (applyCosts { max_spend_dollars := m } es).remaining_dollars =
      max 0 (m - (applyCosts { max_spend_dollars := m } es).spent_dollars) := by
  have hs : (applyCosts { max_spend_dollars := m } es).spent_dollars = sumCosts es := by
    rw [applyCosts_spent]; simp
  have hm : (applyCosts { max_spend_dollars := m } es).max_spend_dollars = m :=
    applyCosts_max _ _
  refine ⟨?_, ?_, ?_, ?_⟩
  · intro hlt
    constructor
    · simp only [SpendBudget.is_exhausted, hs, hm, decide_eq_false_iff_not]
      linarith
    · simp only [SpendBudget.remaining_dollars, hs, hm]
      exact max_eq_right (by linarith)
  · intro hge
    constructor
    · simp only [SpendBudget.is_exhausted, hs, hm, decide_eq_true_eq]
      linarith
    · intro es2 h2
      have hs2 := applyCosts_spent (applyCosts { max_spend_dollars := m } es) es2
      have hn2 := sumCosts_nonneg es2 h2
      simp only [SpendBudget.is_exhausted, hs2, hs,
        applyCosts_max (applyCosts { max_spend_dollars := m } es) es2, hm,
        decide_eq_true_eq]
      linarith
  · intro es2 h2
    have hs2 := applyCosts_spent (applyCosts { max_spend_dollars := m } es) es2
    have hn2 := sumCosts_nonneg es2 h2
    rw [hs2]
    linarith
  · simp only [SpendBudget.remaining_dollars, hm]

theorem c1_budget_invariants_witness :
    (∀ e ∈ ([⟨"agent", 3, 4, 1⟩] : List CallEntry), 0 ≤ e.cost) ∧
      ((sumCosts [⟨"agent", 3, 4, 1⟩] < (2 : ℚ) →
        (applyCosts { max_spend_dollars := 2 } [⟨"agent", 3, 4, 1⟩]).is_exhausted = false ∧
          (applyCosts { max_spend_dollars := 2 } [⟨"agent", 3, 4, 1⟩]).remaining_dollars =
            2 - sumCosts [⟨"agent", 3, 4, 1⟩]) ∧
      ((2 : ℚ) ≤ sumCosts [⟨"agent", 3, 4, 1⟩] →
        (applyCosts { max_spend_dollars := 2 } [⟨"agent", 3, 4, 1⟩]).is_exhausted = true ∧
          ∀ es2, (∀ e ∈ es2, 0 ≤ e.cost) →
            (applyCosts (applyCosts { max_spend_dollars := 2 } [⟨"agent", 3, 4, 1⟩]) es2).is_exhausted
              = true) ∧
      (∀ es2, (∀ e ∈ es2, 0 ≤ e.cost) →
        (applyCosts { max_spend_dollars := 2 } [⟨"agent", 3, 4, 1⟩]).spent_dollars ≤
          (applyCosts (applyCosts { max_spend_dollars := 2 } [⟨"agent", 3, 4, 1⟩]) es2).spent_dollars) ∧
      (applyCosts { max_spend_dollars := 2 } [⟨"agent", 3, 4, 1⟩]).remaining_dollars =
        max 0 (2 - (applyCosts { max_spend_dollars := 2 } [⟨"agent", 3, 4, 1⟩]).spent_dollars)) :=
  ⟨by decide, c1_budget_invariants 2 [⟨"agent", 3, 4, 1⟩] (by decide)⟩

/-! ## Think/act cycle lemmas (claims C2, C4) -/

/-- The cycle leaves an absent budget absent. -/
theorem stepLoop_budget_none (pin pout : ℚ) (env : Env) :
    ∀ r st, st.budget = none → (stepLoop pin pout env r st).2.budget = none := by
  intro r
  induction r with
  | zero => intro st hb; simpa [stepLoop] using hb
  | succ r ih =>
    intro st hb
    simp only [stepLoop, hb, budgetExhausted]
    simp only [Bool.false_eq_true, if_false]
    by_cases ht : (env.script st.calls).has_tool_calls
    · simp only [ht, if_true]
      exact ih _ rfl
    · simp [ht]

/-- With no budget attached, the budget check of loop.py line 285 is false
on every iteration, so the cycle never takes the budget-stop exit. -/
theorem stepLoop_none_ne_budgetStop (pin pout : ℚ) (env : Env) :
    ∀ r st, st.budget = none →
      (stepLoop pin pout env r st).1 ≠ LoopExit.budgetStop := by
  intro r
  induction r with
  | zero =>
    intro st _
    simp [stepLoop]
  | succ r ih =>
    intro st hb
    simp only [stepLoop, hb, budgetExhausted]
    simp only [Bool.false_eq_true, if_false]
    by_cases ht : (env.script st.calls).has_tool_calls
    · simp only [ht, if_true]
      exact ih _ rfl
    · simp [ht]

/-- A provider whose next `r` responses all carry tool calls, with a budget
whose exhaustion never ends the run: the cycle runs all `r` remaining
iterations — re-evaluating the budget check to false before each call — one
provider call each, and exits by the iteration cap. -/
theorem stepLoop_all_tools (pin pout : ℚ) (env : Env) :
    ∀ r st,
      (∀ i, st.calls ≤ i → i < st.calls + r → (env.script i).tool_calls ≠ []) →
      (stepLoop pin pout env r st).1 ≠ LoopExit.budgetStop →
      (stepLoop pin pout env r st).1 = LoopExit.iterCap ∧
        (stepLoop pin pout env r st).2.calls = st.calls + r := by
  intro r
  induction r with
  | zero =>
    intro st _ _
    exact ⟨by simp [stepLoop], by simp [stepLoop]⟩
  | succ r ih =>
    intro st hsc hnb
    have hne := hsc st.calls le_rfl (by omega)
    have ht : (env.script st.calls).has_tool_calls = true := by
      unfold LLMResponse.has_tool_calls
      cases hcase : (env.script st.calls).tool_calls with
      | nil => exact absurd hcase hne
      | cons a l => simp
    have hsc' : ∀ i, st.calls + 1 ≤ i → i < st.calls + 1 + r →
        (env.script i).tool_calls ≠ [] := fun i h1 h2 => hsc i (by omega) (by omega)
    by_cases hbe : budgetExhausted st.budget
    · exact absurd (by simp [stepLoop, hbe]) hnb
    · simp only [stepLoop, hbe] at hnb ⊢
      simp only [Bool.false_eq_true, if_false, ht, if_true] at hnb ⊢
      refine ⟨(ih _ hsc' hnb).1, ?_⟩
      rw [(ih _ hsc' hnb).2]
      show st.calls + 1 + r = st.calls + (r + 1)
      omega

/-- C2: a turn handed a budget that is already exhausted before its first
model call exits through the budget check of loop.py line 285 without a
single provider call, and its final content — which becomes the turn's
outbound content — is the budget-exhaustion notice carrying the budget's
human-readable `get_summary`; this is the loop's normal content resolution,
not an error path. -/
theorem c2_exhausted_budget_short_circuit (cfg : AgentConfig) (env : Env)
    (messages : List ChatMsg) (b : SpendBudget)
    (hex : b.is_exhausted = true) (hit : 0 < cfg.max_iterations) :
    (run_turn cfg env messages (some b)).1 = LoopExit.budgetStop ∧
      (run_turn cfg env messages (some b)).2.calls = 0 ∧
      finalContent (run_turn cfg env messages (some b)).1
          (run_turn cfg env messages (some b)).2.budget =
        "I've reached my budget limit for this request. " ++ b.get_summary := by
  obtain ⟨k, hk⟩ : ∃ k, cfg.max_iterations = k + 1 :=
    ⟨cfg.max_iterations - 1, by omega⟩
  unfold run_turn
  rw [hk]
  simp [stepLoop, budgetExhausted, hex, finalContent]

theorem c2_exhausted_budget_short_circuit_witness :
    ({ max_spend_dollars := 1, spent_dollars := 2 } : SpendBudget).is_exhausted = true ∧
      0 < ({} : AgentConfig).max_iterations ∧
      ((run_turn {} plainEnv []
          (some { max_spend_dollars := 1, spent_dollars := 2 })).1 = LoopExit.budgetStop ∧
        (run_turn {} plainEnv []
          (some { max_spend_dollars := 1, spent_dollars := 2 })).2.calls = 0 ∧
        finalContent
            (run_turn {} plainEnv []
              (some { max_spend_dollars := 1, spent_dollars := 2 })).1
            (run_turn {} plainEnv []
              (some { max_spend_dollars := 1, spent_dollars := 2 })).2.budget =
          "I've reached my budget limit for this request. " ++
            ({ max_spend_dollars := 1, spent_dollars := 2 } : SpendBudget).get_summary) :=
  ⟨by decide, by decide,
    c2_exhausted_budget_short_circuit {} plainEnv []
      { max_spend_dollars := 1, spent_dollars := 2 } (by decide) (by decide)⟩

/-- C4: a turn in the claim's scope — no budget attached, or an attached
budget whose exhaustion never ends the run (the cycle never takes the
budget-stop exit; with no budget that is automatic) — whose model responses
all carry tool calls terminates normally after exactly `max_iterations`
provider calls (20 by default), re-evaluating the budget check to false
before each call when a budget is attached.  Since the tool-call branch never
records an answer, the resolved outbound content is the generic fallback
string — satisfying "the last available content or the generic fallback" —
with no error involved. -/
theorem c4_iteration_cap_exact (cfg : AgentConfig) (env : Env)
    (messages : List ChatMsg) (budget : Option SpendBudget)
    (h : ∀ i, i < cfg.max_iterations → (env.script i).tool_calls ≠ [])
    (hnb : budget = none ∨
      (run_turn cfg env messages budget).1 ≠ LoopExit.budgetStop) :
    (run_turn cfg env messages budget).1 = LoopExit.iterCap ∧
      (run_turn cfg env messages budget).2.calls = cfg.max_iterations ∧
      finalContent (run_turn cfg env messages budget).1
          (run_turn cfg env messages budget).2.budget =
        "I've completed processing but have no response to give." := by
  have hnb' : (run_turn cfg env messages budget).1 ≠ LoopExit.budgetStop := by
    rcases hnb with hb | hnb
    · subst hb
      exact stepLoop_none_ne_budgetStop cfg.input_price_per_million
        cfg.output_price_per_million env cfg.max_iterations
        { messages := messages, budget := none, calls := 0, published := [] } rfl
    · exact hnb
  have hrun := stepLoop_all_tools cfg.input_price_per_million
    cfg.output_price_per_million env cfg.max_iterations
    { messages := messages, budget := budget, calls := 0, published := [] }
    (by intro i h1 h2; exact h i (by simpa using h2)) hnb'
  unfold run_turn
  refine ⟨hrun.1, by simpa using hrun.2, ?_⟩
  rw [hrun.1]
  rfl

theorem c4_iteration_cap_exact_witness :
    (∀ i, i < ({} : AgentConfig).max_iterations →
      (loopingEnv.script i).tool_calls ≠ []) ∧
      ((some { max_spend_dollars := 1000 } : Option SpendBudget) = none ∨
        (run_turn {} loopingEnv [] (some { max_spend_dollars := 1000 })).1 ≠
          LoopExit.budgetStop) ∧
      ((run_turn {} loopingEnv [] (some { max_spend_dollars := 1000 })).1 =
          LoopExit.iterCap ∧
        (run_turn {} loopingEnv [] (some { max_spend_dollars := 1000 })).2.calls =
          ({} : AgentConfig).max_iterations ∧
        finalContent
            (run_turn {} loopingEnv [] (some { max_spend_dollars := 1000 })).1
            (run_turn {} loopingEnv [] (some { max_spend_dollars := 1000 })).2.budget =
          "I've completed processing but have no response to give.") :=
  ⟨fun i _ => by simp [loopingEnv], Or.inr (by decide),
    c4_iteration_cap_exact {} loopingEnv [] (some { max_spend_dollars := 1000 })
      (fun i _ => by simp [loopingEnv]) (Or.inr (by decide))⟩

/-! ## System-message routing (claim C5) -/

/-- Splitting at the first separator undoes the `"<channel>:<chat_id>"`
encoding as long as the channel itself contains no separator — the chat id
part may contain any characters, separators included. -/
theorem splitFirst_encode (c i : List Char) (h : ':' ∉ c) :
    splitFirst ':' (c ++ ':' :: i) = some (c, i) := by
  induction c with
  | nil => simp [splitFirst]
  | cons a as ih =>
    have ha : ¬ a = ':' := fun he => h (he ▸ List.mem_cons_self a as)
    have hm : ':' ∉ as := fun hm => h (List.mem_cons_of_mem a hm)
    show splitFirst ':' (a :: (as ++ ':' :: i)) = some (a :: as, i)
    simp only [splitFirst]
    rw [if_neg ha, ih hm]

/-- C5: an inbound message on the reserved `"system"` channel whose chat id
encodes `origin_channel ++ ":" ++ origin_chat_id` (the origin channel being
colon-free) produces an outbound message routed to exactly that origin
channel and origin chat id; decoding splits on the first colon, so the
round-trip holds even when the origin chat id itself contains colons. -/
theorem c5_system_message_routing (cfg : AgentConfig) (env : Env)
    (sessions : SessionMap) (msg : InboundMessage) (ch id : String)
    (hch : msg.channel = "system")
    (hcid : msg.chat_id.data = ch.data ++ ':' :: id.data)
    (hnc : ':' ∉ ch.data) :
    ((process_message cfg env sessions msg).response.map OutboundMessage.channel)
        = some ch ∧
      ((process_message cfg env sessions msg).response.map OutboundMessage.chat_id)
        = some id := by
  have hparse : parseOriginChat msg.chat_id = (ch, id) := by
    unfold parseOriginChat
    rw [hcid, splitFirst_encode ch.data id.data hnc]
  unfold process_message
  rw [if_pos hch]
  simp [process_system_message, hparse]

theorem c5_system_message_routing_witness :
    (InboundMessage.channel ⟨"system", "subagent", "telegram:42", "task done"⟩
        = "system") ∧
      (InboundMessage.chat_id ⟨"system", "subagent", "telegram:42", "task done"⟩).data
        = ("telegram" : String).data ++ ':' :: ("42" : String).data ∧
      ':' ∉ ("telegram" : String).data ∧
      (((process_message {} plainEnv []
            ⟨"system", "subagent", "telegram:42", "task done"⟩).response.map
          OutboundMessage.channel) = some "telegram" ∧
        ((process_message {} plainEnv []
            ⟨"system", "subagent", "telegram:42", "task done"⟩).response.map
          OutboundMessage.chat_id) = some "42") :=
  ⟨rfl, by decide, by decide,
    c5_system_message_routing {} plainEnv []
      ⟨"system", "subagent", "telegram:42", "task done"⟩ "telegram" "42"
      rfl (by decide) (by decide)⟩

/-! ## Command handling (claim C8) -/

/-- Looking up the key just inserted returns the inserted session. -/
theorem lookupSession_insert (m : SessionMap) (k : String) (s : HonchoSession) :
    lookupSession (insertSession m k s) k = some s := by
  simp [lookupSession, insertSession, List.find?]

/-- `get_or_create` hands back a session whose `key` field is the requested
key, provided every cached session is stored under its own key — the
invariant the Python cache maintains, since `get_or_create` inserts under the
requested key and `save` under `session.key`. -/
theorem get_or_create_key (env : Env) (m : SessionMap) (k : String)
    (hwf : ∀ kv ∈ m, (kv.2 : HonchoSession).key = kv.1) :
    (get_or_create env m k).2.key = k := by
  unfold get_or_create lookupSession
  cases hf : List.find? (fun kv => kv.1 = k) m with
  | none => simp
  | some kv =>
    have hp := List.find?_some hf
    simp only [decide_eq_true_eq] at hp
    have hmem := List.mem_of_find?_eq_some hf
    simp only
    rw [hwf kv hmem, hp]

/-- A turn whose content is a recognised command returns the command's
response immediately: no session write beyond the command's own, no budget,
zero provider calls, nothing published. -/
theorem process_message_command (cfg : AgentConfig) (env : Env)
    (sessions : SessionMap) (msg : InboundMessage)
    (so : SessionMap × OutboundMessage)
    (hch : ¬ msg.channel = "system")
    (hc : handle_command cfg env sessions msg = some so) :
    process_message cfg env sessions msg =
      { sessions := so.1, response := some so.2, published := [],
        provider_calls := 0, budget := none, shared_budget_set := false } := by
  unfold process_message
  rw [if_neg hch, hc]

/-- C8: `/clear` (likewise `/reset`, `/new`) followed by `/status` on the same
session key: the clear turn immediately returns the confirmation with zero
model calls, and the status turn immediately reports `Messages: 0` with zero
model calls — both short-circuit before the think/act cycle.  The
well-formedness hypothesis states each cached session is stored under its own
key, which the cache operations preserve. -/
theorem c8_clear_then_status (cfg : AgentConfig) (env : Env)
    (sessions : SessionMap) (msg1 msg2 : InboundMessage)
    (hwf : ∀ kv ∈ sessions, (kv.2 : HonchoSession).key = kv.1)
    (hch1 : ¬ msg1.channel = "system") (hch2 : ¬ msg2.channel = "system")
    (hc1 : pyLower (pyStrip msg1.content) = "/clear" ∨
      pyLower (pyStrip msg1.content) = "/reset" ∨
      pyLower (pyStrip msg1.content) = "/new")
    (hc2 : pyLower (pyStrip msg2.content) = "/status")
    (hkey : msg1.session_key = msg2.session_key) :
    (process_message cfg env sessions msg1).provider_calls = 0 ∧
      (process_message cfg env sessions msg1).response =
        some ⟨msg1.channel, msg1.chat_id,
          "Session cleared. Starting fresh conversation."⟩ ∧
      (process_message cfg env
          (process_message cfg env sessions msg1).sessions msg2).provider_calls = 0 ∧
      (process_message cfg env
          (process_message cfg env sessions msg1).sessions msg2).response =
        some ⟨msg2.channel, msg2.chat_id,
          statusText cfg.honcho_enabled cfg.honcho_prefetch msg2.session_key 0⟩ := by
  have hckey : (get_or_create env sessions msg1.session_key).2.clear.key
      = msg2.session_key := by
    show (get_or_create env sessions msg1.session_key).2.key = msg2.session_key
    rw [get_or_create_key env sessions msg1.session_key hwf, hkey]
  have hclear : handle_command cfg env sessions msg1 =
      some (insertSession (get_or_create env sessions msg1.session_key).1
          msg2.session_key ((get_or_create env sessions msg1.session_key).2.clear),
        ⟨msg1.channel, msg1.chat_id,
          "Session cleared. Starting fresh conversation."⟩) := by
    unfold handle_command
    simp only
    rw [if_pos hc1, ← hckey]
    rfl
  have ht1 := process_message_command cfg env sessions msg1 _ hch1 hclear
  have hget : get_or_create env
      (insertSession (get_or_create env sessions msg1.session_key).1
        msg2.session_key ((get_or_create env sessions msg1.session_key).2.clear))
      msg2.session_key =
      (insertSession (get_or_create env sessions msg1.session_key).1
          msg2.session_key ((get_or_create env sessions msg1.session_key).2.clear),
        (get_or_create env sessions msg1.session_key).2.clear) := by
    unfold get_or_create
    rw [lookupSession_insert]
  have hstatus : handle_command cfg env
      (insertSession (get_or_create env sessions msg1.session_key).1
        msg2.session_key ((get_or_create env sessions msg1.session_key).2.clear))
      msg2 =
      some (insertSession (get_or_create env sessions msg1.session_key).1
          msg2.session_key ((get_or_create env sessions msg1.session_key).2.clear),
        ⟨msg2.channel, msg2.chat_id,
          statusText cfg.honcho_enabled cfg.honcho_prefetch msg2.session_key 0⟩) := by
    unfold handle_command
    simp only [hc2]
    rw [if_neg (by decide), if_pos trivial, hget]
    rfl
  have ht2 := process_message_command cfg env
    (insertSession (get_or_create env sessions msg1.session_key).1
      msg2.session_key ((get_or_create env sessions msg1.session_key).2.clear))
    msg2 _ hch2 hstatus
  refine ⟨by rw [ht1], by rw [ht1], ?_, ?_⟩
  · rw [ht1]
    show (process_message cfg env
      (insertSession (get_or_create env sessions msg1.session_key).1
        msg2.session_key ((get_or_create env sessions msg1.session_key).2.clear))
      msg2).provider_calls = 0
    rw [ht2]
  · rw [ht1]
    show (process_message cfg env
      (insertSession (get_or_create env sessions msg1.session_key).1
        msg2.session_key ((get_or_create env sessions msg1.session_key).2.clear))
      msg2).response = some ⟨msg2.channel, msg2.chat_id,
        statusText cfg.honcho_enabled cfg.honcho_prefetch msg2.session_key 0⟩
    rw [ht2]

theorem c8_clear_then_status_witness :
    (∀ kv ∈ ([] : SessionMap), (kv.2 : HonchoSession).key = kv.1) ∧
      (¬ ("cli" : String) = "system") ∧
      (pyLower (pyStrip "/clear") = "/clear" ∨ pyLower (pyStrip "/clear") = "/reset" ∨
        pyLower (pyStrip "/clear") = "/new") ∧
      (pyLower (pyStrip "/status") = "/status") ∧
      ((process_message {} plainEnv [] ⟨"cli", "u", "1", "/clear"⟩).provider_calls = 0 ∧
        (process_message {} plainEnv [] ⟨"cli", "u", "1", "/clear"⟩).response =
          some ⟨"cli", "1", "Session cleared. Starting fresh conversation."⟩ ∧
        (process_message {} plainEnv
            (process_message {} plainEnv [] ⟨"cli", "u", "1", "/clear"⟩).sessions
            ⟨"cli", "u", "1", "/status"⟩).provider_calls = 0 ∧
        (process_message {} plainEnv
            (process_message {} plainEnv [] ⟨"cli", "u", "1", "/clear"⟩).sessions
            ⟨"cli", "u", "1", "/status"⟩).response =
          some ⟨"cli", "1",
            statusText ({} : AgentConfig).honcho_enabled
              ({} : AgentConfig).honcho_prefetch
              (InboundMessage.session_key ⟨"cli", "u", "1", "/status"⟩) 0⟩) :=
  ⟨by simp, by decide, by left; decide, by decide,
    c8_clear_then_status {} plainEnv [] ⟨"cli", "u", "1", "/clear"⟩
      ⟨"cli", "u", "1", "/status"⟩ (by simp) (by decide) (by decide)
      (by left; decide) (by decide) rfl⟩

/-! ## Zero spend ceiling (claim C9) -/

/-- C9: constructing the loop with `max_spend_dollars = 0.0` behaves exactly
as constructing it with `None`: the truthiness test of loop.py line 267 is
false, so no `SpendBudget` is created, nothing is attached to the subagent
manager, and the whole turn — model calls bounded only by `max_iterations` —
is identical to the unlimited-spend turn. -/
theorem c9_zero_ceiling_unlimited (cfg : AgentConfig) (env : Env)
    (sessions : SessionMap) (msg : InboundMessage) :
    process_message { cfg with max_spend_dollars := some 0 } env sessions msg =
        process_message { cfg with max_spend_dollars := none } env sessions msg ∧
      (process_message { cfg with max_spend_dollars := some 0 } env sessions
          msg).shared_budget_set = false ∧
      (process_message { cfg with max_spend_dollars := some 0 } env sessions
          msg).budget = none := by
  refine ⟨rfl, ?_⟩
  unfold process_message
  by_cases hch : msg.channel = "system"
  · rw [if_pos hch]
    exact ⟨rfl, rfl⟩
  · rw [if_neg hch]
    cases hc : handle_command { cfg with max_spend_dollars := some 0 } env
        sessions msg with
    | some so => exact ⟨rfl, rfl⟩
    | none =>
      constructor
      · rfl
      · show (run_turn { cfg with max_spend_dollars := some 0 } env _
            (if pythonTruthy (some 0) then _ else none)).2.budget = none
        unfold run_turn
        exact stepLoop_budget_none _ _ env _ _ rfl

/-! ## Tool dispatch (claim C7) -/

/-- C7: executing the tool calls of one response appends, for each call in
order, exactly one tool-result turn carrying that call's id and the
dispatch's result-or-error string; an unregistered name yields the
tool-not-found error string and a failing tool yields an error string built
from its message.  Dispatch is a total function of the model, so no exception
ever escapes the iteration. -/
theorem c7_tool_dispatch_total (reg : ToolRegistry) (messages : List ChatMsg)
    (tcs : List ToolCall) :
    (execToolCalls reg messages tcs).1 =
      messages ++ tcs.map (fun tc =>
        ChatMsg.toolResult tc.id tc.name (reg.execute tc.name tc.arguments).1) ∧
      (∀ tc : ToolCall,
        reg.tools.find? (fun t => t.name = tc.name) = none →
        (reg.execute tc.name tc.arguments).1 = "Error: tool not found: " ++ tc.name) ∧
      (∀ (tc : ToolCall) (t : ToolImpl) (e : String) (pub : List OutboundMessage),
        reg.tools.find? (fun t => t.name = tc.name) = some t →
        t.run tc.arguments = (Except.error e, pub) →
        (reg.execute tc.name tc.arguments).1 = "Error: " ++ e) := by
  refine ⟨?_, ?_, ?_⟩
  · induction tcs generalizing messages with
    | nil => simp [execToolCalls]
    | cons tc rest ih =>
      simp only [execToolCalls]
      rw [ih]
      simp [add_tool_result]
  · intro tc hf
    unfold ToolRegistry.execute
    rw [hf]
  · intro tc t e pub hf hrun
    unfold ToolRegistry.execute
    simp [hf, hrun]

theorem c7_tool_dispatch_total_witness :
    ((execToolCalls { tools := [] } []
        ([⟨"c1", "nope", "{}"⟩] : List ToolCall)).1 =
      [] ++ ([⟨"c1", "nope", "{}"⟩] : List ToolCall).map (fun tc =>
        ChatMsg.toolResult tc.id tc.name
          (ToolRegistry.execute { tools := [] } tc.name tc.arguments).1) ∧
      (∀ tc : ToolCall,
        (List.find? (fun t => t.name = tc.name) ({ tools := [] } : ToolRegistry).tools) = none →
        (ToolRegistry.execute { tools := [] } tc.name tc.arguments).1 =
          "Error: tool not found: " ++ tc.name) ∧
      (∀ (tc : ToolCall) (t : ToolImpl) (e : String) (pub : List OutboundMessage),
        (List.find? (fun t => t.name = tc.name) ({ tools := [] } : ToolRegistry).tools) = some t →
        t.run tc.arguments = (Except.error e, pub) →
        (ToolRegistry.execute { tools := [] } tc.name tc.arguments).1 = "Error: " ++ e)) :=
  c7_tool_dispatch_total { tools := [] } [] ([⟨"c1", "nope", "{}"⟩] : List ToolCall)

/-! ## Outbound message count (claim C6) -/

/-- Dispatching through the registry publishes nothing when no registered
tool publishes. -/
theorem execute_no_publish (reg : ToolRegistry) (name args : String)
    (hpub : ∀ t ∈ reg.tools, ∀ a, (t.run a).2 = []) :
    (reg.execute name args).2 = [] := by
  unfold ToolRegistry.execute
  cases hf : List.find? (fun t => t.name = name) reg.tools with
  | none => rfl
  | some t =>
    have hmem := List.mem_of_find?_eq_some hf
    have hp := hpub t hmem args
    rcases hrun : t.run args with ⟨res, pub⟩
    rw [hrun] at hp
    simp only at hp
    cases res <;> simp [hrun, hp]

/-- Executing a batch of tool calls publishes nothing when no registered tool
publishes. -/
theorem execToolCalls_no_publish (reg : ToolRegistry)
    (hpub : ∀ t ∈ reg.tools, ∀ a, (t.run a).2 = []) :
    ∀ (tcs : List ToolCall) (messages : List ChatMsg),
      (execToolCalls reg messages tcs).2 = [] := by
  intro tcs
  induction tcs with
  | nil => intro messages; rfl
  | cons tc rest ih =>
    intro messages
    simp only [execToolCalls]
    rw [execute_no_publish reg tc.name tc.arguments hpub, ih]
    rfl

/-- The think/act cycle publishes nothing of its own: everything in
`published` comes from tool executions. -/
theorem stepLoop_published (pin pout : ℚ) (env : Env)
    (hpub : ∀ t ∈ env.registry.tools, ∀ a, (t.run a).2 = []) :
    ∀ r st, (stepLoop pin pout env r st).2.published = st.published := by
  intro r
  induction r with
  | zero => intro st; simp [stepLoop]
  | succ r ih =>
    intro st
    by_cases hbe : budgetExhausted st.budget
    · simp [stepLoop, hbe]
    · simp only [stepLoop, hbe]
      simp only [Bool.false_eq_true, if_false]
      by_cases ht : (env.script st.calls).has_tool_calls
      · simp only [ht, if_true]
        rw [ih]
        simp only
        rw [execToolCalls_no_publish env.registry hpub]
        simp
      · simp [ht]

/-- C6 (amended): the loop itself produces at most one outbound message per
inbound message — the final response, a command confirmation or the system
route's answer — so when no invoked tool publishes to the bus the total
outbound count of a turn is at most one.  (The unrestricted claim fails: the
message tool is registered with `bus.publish_outbound` as its send callback,
so a turn whose model invokes it publishes additional messages mid-turn.) -/
theorem c6_loop_emits_at_most_one (cfg : AgentConfig) (env : Env)
    (sessions : SessionMap) (msg : InboundMessage)
    (hpub : ∀ t ∈ env.registry.tools, ∀ a, (t.run a).2 = []) :
    totalOutbound (process_message cfg env sessions msg) ≤ 1 := by
  unfold process_message
  by_cases hch : msg.channel = "system"
  · rw [if_pos hch]
    unfold process_system_message totalOutbound
    simp only
    unfold run_turn
    rw [stepLoop_published _ _ env hpub]
    simp
  · rw [if_neg hch]
    cases hc : handle_command cfg env sessions msg with
    | some so => simp [totalOutbound]
    | none =>
      unfold totalOutbound
      simp only
      unfold run_turn
      rw [stepLoop_published _ _ env hpub]
      simp

theorem c6_loop_emits_at_most_one_witness :
    (∀ t ∈ plainEnv.registry.tools, ∀ a, (t.run a).2 = []) ∧
      totalOutbound (process_message {} plainEnv [] ⟨"cli", "user", "direct", "hi"⟩) ≤ 1 :=
  ⟨by simp [plainEnv], c6_loop_emits_at_most_one {} plainEnv []
    ⟨"cli", "user", "direct", "hi"⟩ (by simp [plainEnv])⟩

/-- C6 counterexample: the claim says at most one outbound message is
published per inbound message, with nothing extra mid-turn; but with the
message tool registered (its send callback being the bus's publish, loop.py
lines 132–134), a turn whose first model response invokes it produces two
outbound messages — the tool's mid-turn publish and the loop's final
response. -/
theorem c6_counterexample :
    totalOutbound (process_message {} msgToolEnv [] ⟨"cli", "user", "direct", "hi"⟩)
      = 2 := by
  decide

/-! ## Shared-budget concurrency (claim C3) -/

/-- Summing a pointwise-updated function splits into the new value at the
updated point plus the old values elsewhere. -/
theorem sum_update_erase {n : ℕ} (f : Fin n → ℚ) (l : Fin n) (v : ℚ) :
    (∑ k : Fin n, Function.update f l v k) =
      v + ∑ k in Finset.univ.erase l, f k := by
  rw [← Finset.add_sum_erase Finset.univ (fun k => Function.update f l v k)
    (Finset.mem_univ l)]
  rw [Function.update_same]
  refine congrArg (v + ·) (Finset.sum_congr rfl ?_)
  intro k hk
  rw [Function.update_noteq (Finset.ne_of_mem_erase hk)]

/-- Peeling one point off a sum over all loops. -/
theorem sum_erase_decomp {n : ℕ} (f : Fin n → ℚ) (l : Fin n) :
    (∑ k : Fin n, f k) = f l + ∑ k in Finset.univ.erase l, f k :=
  (Finset.add_sum_erase Finset.univ f (Finset.mem_univ l)).symm

/-- Every step of the shared-budget system preserves the invariant. -/
theorem sharedStep_inv {n : ℕ} {m : ℚ} {σ σ' : SharedState n}
    {lbl : SharedLabel n} (hinv : SharedInv m σ) (hstep : SharedStep σ lbl σ') :
    SharedInv m σ' := by
  obtain ⟨hmax, hnn, hcons, hsum⟩ := hinv
  cases hstep with
  | start l c hc hph hex =>
    refine ⟨hmax, ?_, ?_, ?_⟩
    · intro k
      by_cases hk : k = l
      · subst hk
        simpa [Function.update_same] using hc
      · simpa [Function.update_noteq hk] using hnn k
    · intro k c' hpk
      by_cases hk : k = l
      · subst hk
        simp only [Function.update_same] at hpk ⊢
        cases hpk
        rfl
      · simp only [Function.update_noteq hk] at hpk ⊢
        exact hcons k c' hpk
    · show σ.budget.spent_dollars +
        (∑ k : Fin n, (Function.update σ.phase l (LoopPhase.calling c) k).inFlight)
        ≤ m + ∑ k : Fin n, Function.update σ.lastCost l c k
      have h1 : (∑ k : Fin n,
          (Function.update σ.phase l (LoopPhase.calling c) k).inFlight) =
          c + ∑ k in Finset.univ.erase l, (σ.phase k).inFlight := by
        rw [show (∑ k : Fin n,
            (Function.update σ.phase l (LoopPhase.calling c) k).inFlight) =
            ∑ k : Fin n,
              Function.update (fun j => (σ.phase j).inFlight) l
                (LoopPhase.calling c).inFlight k from
          Finset.sum_congr rfl fun k _ =>
            (Function.apply_update (fun _ p => LoopPhase.inFlight p)
              σ.phase l (LoopPhase.calling c) k)]
        rw [sum_update_erase]
        rfl
      have h2 := sum_update_erase σ.lastCost l c
      have h3 : (∑ k in Finset.univ.erase l, (σ.phase k).inFlight) ≤
          ∑ k in Finset.univ.erase l, σ.lastCost k := by
        refine Finset.sum_le_sum ?_
        intro k _
        cases hph2 : σ.phase k with
        | calling ck =>
          rw [hcons k ck hph2]
          simp [LoopPhase.inFlight]
        | checking => simpa [LoopPhase.inFlight] using hnn k
        | finished => simpa [LoopPhase.inFlight] using hnn k
      have hlt : σ.budget.spent_dollars < m := by
        have hni : ¬ (σ.budget.max_spend_dollars ≤ σ.budget.spent_dollars) := by
          simpa [SpendBudget.is_exhausted] using hex
        rw [hmax] at hni
        linarith
      rw [h1, h2]
      linarith
  | finish l c tin tout src hph =>
    refine ⟨hmax, hnn, ?_, ?_⟩
    · intro k c' hpk
      by_cases hk : k = l
      · subst hk
        simp only [Function.update_same] at hpk
        exact absurd hpk (by simp)
      · simp only [Function.update_noteq hk] at hpk ⊢
        exact hcons k c' hpk
    · show σ.budget.spent_dollars + c +
        (∑ k : Fin n, (Function.update σ.phase l LoopPhase.checking k).inFlight)
        ≤ m + lastCostSum σ
      have h1 : (∑ k : Fin n,
          (Function.update σ.phase l LoopPhase.checking k).inFlight) =
          ∑ k in Finset.univ.erase l, (σ.phase k).inFlight := by
        rw [show (∑ k : Fin n,
            (Function.update σ.phase l LoopPhase.checking k).inFlight) =
            ∑ k : Fin n,
              Function.update (fun j => (σ.phase j).inFlight) l
                LoopPhase.checking.inFlight k from
          Finset.sum_congr rfl fun k _ =>
            (Function.apply_update (fun _ p => LoopPhase.inFlight p)
              σ.phase l LoopPhase.checking k)]
        rw [sum_update_erase]
        simp [LoopPhase.inFlight]
      have h2 : inFlightSum σ =
          c + ∑ k in Finset.univ.erase l, (σ.phase k).inFlight := by
        have h := sum_erase_decomp (fun k => (σ.phase k).inFlight) l
        rw [hph] at h
        exact h
      rw [h1]
      rw [h2] at hsum
      linarith
  | stop l hph =>
    refine ⟨hmax, hnn, ?_, ?_⟩
    · intro k c' hpk
      by_cases hk : k = l
      · subst hk
        simp only [Function.update_same] at hpk
        exact absurd hpk (by simp)
      · simp only [Function.update_noteq hk] at hpk ⊢
        exact hcons k c' hpk
    · show σ.budget.spent_dollars +
        (∑ k : Fin n, (Function.update σ.phase l LoopPhase.finished k).inFlight)
        ≤ m + lastCostSum σ
      have h1 : (∑ k : Fin n,
          (Function.update σ.phase l LoopPhase.finished k).inFlight) =
          ∑ k in Finset.univ.erase l, (σ.phase k).inFlight := by
        rw [show (∑ k : Fin n,
            (Function.update σ.phase l LoopPhase.finished k).inFlight) =
            ∑ k : Fin n,
              Function.update (fun j => (σ.phase j).inFlight) l
                LoopPhase.finished.inFlight k from
          Finset.sum_congr rfl fun k _ =>
            (Function.apply_update (fun _ p => LoopPhase.inFlight p)
              σ.phase l LoopPhase.finished k)]
        rw [sum_update_erase]
        simp [LoopPhase.inFlight]
      have h2 : inFlightSum σ =
          0 + ∑ k in Finset.univ.erase l, (σ.phase k).inFlight := by
        have h := sum_erase_decomp (fun k => (σ.phase k).inFlight) l
        rw [hph] at h
        exact h
      rw [h1]
      rw [h2] at hsum
      linarith

/-- Every state reachable from a fresh shared budget with nonnegative ceiling
satisfies the invariant. -/
theorem sharedReachable_inv {n : ℕ} {m : ℚ} (h0 : 0 ≤ m) {σ : SharedState n}
    (hr : SharedReachable (sharedInit n m) σ) : SharedInv m σ := by
  induction hr with
  | refl =>
    refine ⟨rfl, fun l => le_refl 0, ?_, ?_⟩
    · intro l c h
      exact absurd h (by simp [sharedInit])
    · simp only [sharedInit, inFlightSum, lastCostSum, LoopPhase.inFlight]
      simpa using h0
  | tail _ hstep ih => exact sharedStep_inv ih hstep

/-- C3: in the shared-budget system — any number of think/act loops charging
one budget, each re-checking `is_exhausted` before every model call exactly
as loop.py line 285 does — a call is only ever started from a state whose
budget is not exhausted, and consequently in every reachable state the total
recorded spend is bounded by the ceiling plus at most one call's cost per
running loop (each loop's most recently started call). -/
theorem c3_shared_budget_bound {n : ℕ} (m : ℚ) (σ : SharedState n)
    (h0 : 0 ≤ m) (hr : SharedReachable (sharedInit n m) σ) :
    σ.budget.spent_dollars ≤ m + lastCostSum σ ∧
      (∀ (l : Fin n) (c : ℚ) (σ' : SharedState n),
        SharedStep σ (SharedLabel.start l c) σ' →
        σ.budget.is_exhausted = false) := by
  obtain ⟨hmax, hnn, hcons, hsum⟩ := sharedReachable_inv h0 hr
  constructor
  · have hf : 0 ≤ inFlightSum σ := by
      refine Finset.sum_nonneg ?_
      intro k _
      cases hph : σ.phase k with
      | calling ck =>
        have h := hnn k
        rw [hcons k ck hph] at h
        simpa [LoopPhase.inFlight] using h
      | checking => simp [LoopPhase.inFlight]
      | finished => simp [LoopPhase.inFlight]
    have hs : σ.budget.spent_dollars + inFlightSum σ ≤ m + lastCostSum σ := hsum
    linarith
  · intro l c σ' hstep
    cases hstep with
    | start _ _ _ _ hex => exact hex

/-- The spec's §8 scenario is a run of the system: 6 spent, then a cost-7
call started while spend is still below the ceiling 10, then charged. -/
theorem demoReachable : SharedReachable (sharedInit 2 10) demoState4 :=
  SharedReachable.tail
    (SharedReachable.tail
      (SharedReachable.tail
        (SharedReachable.tail (SharedReachable.refl demoState0)
          (SharedStep.start 0 6 (by norm_num) rfl
            (by
              simp only [demoState0, sharedInit, SpendBudget.is_exhausted,
                decide_eq_false_iff_not]
              norm_num)))
        (SharedStep.finish 0 6 0 0 "subagent:a"
          (by simp [demoState1, demoState0, sharedInit])))
      (SharedStep.start 1 7 (by norm_num)
        (by simp [demoState2, demoState1, demoState0, sharedInit,
          Function.update_apply])
        (by
          simp only [demoState2, demoState1, demoState0, sharedInit,
            SpendBudget.is_exhausted, SpendBudget.add_cost,
            decide_eq_false_iff_not]
          norm_num)))
    (SharedStep.finish 1 7 0 0 "subagent:b"
      (by simp [demoState3, demoState2, demoState1, demoState0, sharedInit,
        Function.update_apply]))

theorem c3_shared_budget_bound_witness :
    (0 ≤ (10 : ℚ)) ∧ SharedReachable (sharedInit 2 10) demoState4 ∧
      (demoState4.budget.spent_dollars ≤ 10 + lastCostSum demoState4 ∧
        (∀ (l : Fin 2) (c : ℚ) (σ' : SharedState 2),
          SharedStep demoState4 (SharedLabel.start l c) σ' →
          demoState4.budget.is_exhausted = false)) :=
  ⟨by norm_num, demoReachable,
    c3_shared_budget_bound 10 demoState4 (by norm_num) demoReachable⟩

end Nanobot
